import Mathlib

/-!
Shallow embedding of the `powfix/uuid` TypeScript library (class `UUID` in
`src/shared/UUID.ts`, plus the hex byte codec `Uint8ArrayUtils`).

Modelling conventions:
* JavaScript `Uint8Array` values are `List Nat` (entries are below 256 in any
  real `Uint8Array`; theorems carry that bound where it matters).
* JavaScript strings are Lean `String`s (sequences of characters).
* Throwing code is modelled with `Except String`; the error string carries the
  thrown message's intent.
* `null`/`undefined` arguments are modelled with `Option`.
* JavaScript indexing `a[i]`, which yields `undefined` out of range, is
  modelled with `List.get?`; the strict-inequality and `<` semantics on
  possibly-`undefined` operands are modelled explicitly (`jsStrictNeq`,
  `jsLtNum`).
-/

/-- Character-range test on code points: `lo ≤ c.toNat ≤ hi`. -/
def between (lo hi n : Nat) : Bool := decide (lo ≤ n) && decide (n ≤ hi)

/-- The regex character class `[0-9a-fA-F]`. -/
def isHexDigit (c : Char) : Bool :=
  between 48 57 c.toNat || between 97 102 c.toNat || between 65 70 c.toNat

/-- The regex character class `[1-5]` (version character). -/
def isVersionChar (c : Char) : Bool := between 49 53 c.toNat

/-- The regex character class `[89abAB]` (variant character). -/
def isVariantChar (c : Char) : Bool :=
  decide (c.toNat = 56) || decide (c.toNat = 57) || decide (c.toNat = 97) ||
  decide (c.toNat = 98) || decide (c.toNat = 65) || decide (c.toNat = 66)

/-- The character class `-` (literal hyphen). -/
def isDash (c : Char) : Bool := c == '-'

/-- Value of a hexadecimal digit character, `none` for a non-hex character. -/
def hexDigitVal (c : Char) : Option Nat :=
  if between 48 57 c.toNat then some (c.toNat - 48)
  else if between 97 102 c.toNat then some (c.toNat - 87)
  else if between 65 70 c.toNat then some (c.toNat - 55)
  else none

/-- Lowercase hexadecimal digit character for a nibble value. -/
def hexChar (n : Nat) : Char :=
  if n < 10 then Char.ofNat (48 + n) else Char.ofNat (87 + n)

/-- ASCII lowercasing of one character (what `toLowerCase` does on the
ASCII-only strings this library handles). -/
def toLowerChar (c : Char) : Char :=
  if between 65 90 c.toNat then Char.ofNat (c.toNat + 32) else c

/-- ASCII lowercasing of a string. -/
def lowerStr (s : String) : String := String.mk (s.data.map toLowerChar)

/-- Decoder for a sequence of hex-digit pairs into byte values; fails on a
non-hex character or an odd-length tail. -/
def decodePairs : List Char → Except String (List Nat)
  | [] => .ok []
  | c1 :: c2 :: rest =>
    match hexDigitVal c1, hexDigitVal c2 with
    | some h, some l => (decodePairs rest).map (fun bs => (h * 16 + l) :: bs)
    | _, _ => .error "FormatError: invalid hex character"
  | [_] => .error "FormatError: odd hex length"

/-- Encoder of a byte list into its lowercase hex character sequence, two
characters per byte (high nibble first). -/
def bytesToHexChars : List Nat → List Char
  | [] => []
  | b :: bs => hexChar (b / 16) :: hexChar (b % 16) :: bytesToHexChars bs

namespace Uint8ArrayUtils

/-- Modelled from the spec: `Uint8ArrayUtils.fromHex` (the Byte Codec's
`hexToBytes`), whose source file is not part of the provided sources. Per
spec §4.1 it decodes pairs of hex digits and fails with a `FormatError` if
the string contains non-hex characters or is not exactly 32 characters. -/
def fromHex (hex : String) : Except String (List Nat) :=
  if hex.length = 32 then decodePairs hex.data
  else .error "FormatError: hex string must be 32 characters"

/-- Modelled from the spec: `Uint8ArrayUtils.toHex` (the Byte Codec's
`bytesToHex`), whose source file is not part of the provided sources. Per
spec §4.1 it encodes each byte as two lowercase hex digits, concatenated. -/
def toHex (bytes : List Nat) : String := String.mk (bytesToHexChars bytes)

end Uint8ArrayUtils

/-- Sequential matcher for one regex character class repeated `n` times:
consumes `n` characters satisfying `p`, returns the rest, or `none`. -/
def matchClass (p : Char → Bool) : Nat → List Char → Option (List Char)
  | 0, cs => some cs
  | _ + 1, [] => none
  | n + 1, c :: cs => if p c then matchClass p n cs else none

/-- Embedding of `REGEX_HEX`:
`[0-9a-fA-F]{8}[0-9a-fA-F]{4}[1-5][0-9a-fA-F]{3}[89abAB][0-9a-fA-F]{3}[0-9a-fA-F]{12}`
anchored at both ends. -/
def hexMatch (cs : List Char) : Bool :=
  ((((((matchClass isHexDigit 8 cs).bind
    (matchClass isHexDigit 4)).bind
    (matchClass isVersionChar 1)).bind
    (matchClass isHexDigit 3)).bind
    (matchClass isVariantChar 1)).bind
    (matchClass isHexDigit 3)).bind
    (matchClass isHexDigit 12) == some []

/-- Embedding of `REGEX_RFC4122`:
`[hex]{8}-[hex]{4}-[1-5][hex]{3}-[89abAB][hex]{3}-[hex]{12}` anchored at both
ends. -/
def rfcMatch (cs : List Char) : Bool :=
  ((((((((((matchClass isHexDigit 8 cs).bind
    (matchClass isDash 1)).bind
    (matchClass isHexDigit 4)).bind
    (matchClass isDash 1)).bind
    (matchClass isVersionChar 1)).bind
    (matchClass isHexDigit 3)).bind
    (matchClass isDash 1)).bind
    (matchClass isVariantChar 1)).bind
    (matchClass isHexDigit 3)).bind
    (matchClass isDash 1)).bind
    (matchClass isHexDigit 12) == some []

/-- The UUID value: its raw byte representation (`public readonly bytes`).
The memoized `_str`/`_hex` caches are pure recomputations of functions of
`bytes` and are not modelled as state. -/
structure UUID where
  bytes : List Nat
deriving DecidableEq, Repr

/-- The runtime shapes a non-null `UuidInput` can take: a string, a
`Uint8Array`, an existing `UUID` instance, or any other (unsupported)
object. -/
inductive Input where
  | str (s : String)
  | bytes (b : List Nat)
  | uuid (u : UUID)
  | other
deriving DecidableEq

namespace UUID

/-- `UUID.isValidHex`: string test against `REGEX_HEX`. -/
def isValidHex (hex : String) : Bool := hexMatch hex.data

/-- `UUID.isValidString`: string test against `REGEX_RFC4122`. -/
def isValidString (str : String) : Bool := rfcMatch str.data

/-- `UUID.stripHyphens`: `str.replace` with a global hyphen regex and the
empty replacement, i.e. removal of every hyphen. -/
def stripHyphens (str : String) : String :=
  String.mk (str.data.filter (fun c => c != '-'))

/-- `UUID.parseHex`: delegates to the byte codec. -/
def parseHex (hex : String) : Except String (List Nat) :=
  Uint8ArrayUtils.fromHex hex

/-- `UUID.parseString`: strips hyphens, then decodes the remainder as hex. -/
def parseString (str : String) : Except String (List Nat) :=
  parseHex (stripHyphens str)

/-- `UUID.parseBytes`: only checks `instanceof Uint8Array` (always true here
by typing), then copies the array. Note: no length check is performed. -/
def parseBytes (input : List Nat) : Except String (List Nat) :=
  .ok input

/-- `UUID.version` restricted to the `Uint8Array` branch of the source
function: length must be 16, result is `input[6] >> 4`. -/
def versionBytes (b : List Nat) : Except String Nat :=
  if b.length = 16 then .ok (b.getD 6 0 / 16)
  else .error "Invalid UUID byte length: expected 16"

/-- `UUID.parse`: dispatches on the runtime shape of the input. A string of
length 36 goes through `parseString`, of length 32 through `parseHex`, any
other string length throws; a `Uint8Array` goes through `parseBytes`; a
`UUID` contributes a copy of its bytes; `null` or any other shape throws. -/
def parse : Option Input → Except String (List Nat)
  | some (.str s) =>
    if s.length = 36 then parseString s
    else if s.length = 32 then parseHex s
    else .error "Invalid input string, length should be 36 or 32"
  | some (.bytes b) => parseBytes b
  | some (.uuid u) => .ok u.bytes
  | none => .error "Not expected invalid input received: null"
  | some .other => .error "Not expected invalid input received: object"

/-- The constructor `new UUID(input)`: `this.bytes = UUID.parse(input)`. -/
def create (input : Input) : Except String UUID :=
  (parse (some input)).map UUID.mk

/-- `UUID.fromHex`: `new this(this.parseHex(hex))`. -/
def fromHex (hex : String) : Except String UUID :=
  (parseHex hex).bind fun b => create (Input.bytes b)

/-- `UUID.fromString`: `new this(this.parseString(str))`. -/
def fromString (str : String) : Except String UUID :=
  (parseString str).bind fun b => create (Input.bytes b)

/-- `UUID.fromBytes`: `new this(this.parseBytes(bytes))`. -/
def fromBytes (bytes : List Nat) : Except String UUID :=
  (parseBytes bytes).bind fun b => create (Input.bytes b)

/-- `UUID.from`: `this.fromBytes(UUID.parse(input))` (`from` is a Lean
keyword, hence the name `fromInput`). -/
def fromInput (input : Input) : Except String UUID :=
  (parse (some input)).bind fun b => fromBytes b

/-- `UUID.nil`: `fromBytes(new Uint8Array(16))`, sixteen zero bytes. -/
def nil : Except String UUID := fromBytes (List.replicate 16 0)

/-- `UUID.max`: `fromBytes(new Uint8Array(16).fill(0xFF))`. -/
def max : Except String UUID := fromBytes (List.replicate 16 255)

/-- `UUID.version`: the `Uint8Array` branch reads the nibble; every other
shape is first parsed to bytes and the function recurses on the result. -/
def version (input : Option Input) : Except String Nat :=
  match input with
  | some (.bytes b) => versionBytes b
  | other => (parse other).bind versionBytes

/-- `UUID.isValidBytes`: length must be 16, version nibble in `[1,5]`,
variant bits `(bytes[8] & 0xc0) >> 6` equal to `0b10`. The call to
`UUID.version` can throw in general, so the result is an `Except`; the
length guard runs first, exactly as in the source. -/
def isValidBytes (bytes : List Nat) : Except String Bool :=
  if bytes.length = 16 then
    (versionBytes bytes).map fun v =>
      if v < 1 ∨ 5 < v then false
      else if (bytes.getD 8 0 &&& 0xc0) / 64 ≠ 2 then false
      else true
  else .ok false

/-- `UUID.isValid`: `null` and unsupported shapes give `false`; strings are
dispatched by length to the two regex tests; `UUID` instances and byte
arrays go to `isValidBytes`. -/
def isValid (input : Option Input) : Except String Bool :=
  match input with
  | none => .ok false
  | some (.str s) =>
    if s.length = 36 then .ok (isValidString s)
    else if s.length = 32 then .ok (isValidHex s)
    else .ok false
  | some (.uuid u) => isValidBytes u.bytes
  | some (.bytes b) => isValidBytes b
  | some .other => .ok false

/-- JavaScript strict inequality `a[i] !== b[i]` on possibly-`undefined`
byte reads. -/
def jsStrictNeq : Option Nat → Option Nat → Bool
  | some a, some b => a != b
  | none, none => false
  | _, _ => true

/-- JavaScript `a[i] < b[i]` on possibly-`undefined` byte reads: any
comparison against `undefined` is `false` (NaN semantics). -/
def jsLtNum : Option Nat → Option Nat → Bool
  | some a, some b => a < b
  | _, _ => false

/-- The loop body of `UUID.compare`: scan indices `i, i+1, ...` (`rem`
iterations remain); at the first index where the reads differ strictly,
return `-1` or `1` by `<`; return `0` if no index differs. -/
def compareLoop (a b : List Nat) : Nat → Nat → Int
  | _, 0 => 0
  | i, rem + 1 =>
    if jsStrictNeq (a.get? i) (b.get? i) then
      if jsLtNum (a.get? i) (b.get? i) then -1 else 1
    else compareLoop a b (i + 1) rem

/-- Byte-level comparison over the 16 loop iterations of `UUID.compare`. -/
def compareBytes (a b : List Nat) : Int := compareLoop a b 0 16

/-- `UUID.compare`: parse both inputs, then lexicographic byte scan. -/
def compare (uuid1 uuid2 : Input) : Except String Int :=
  (parse (some uuid1)).bind fun a =>
    (parse (some uuid2)).bind fun b => .ok (compareBytes a b)

/-- The inner loop of `UUID.equals` for one candidate against the reference:
`false` at the first strictly different read among indices `j..j+rem-1`. -/
def equalsBytesLoop (r b : List Nat) : Nat → Nat → Bool
  | _, 0 => true
  | j, rem + 1 =>
    if jsStrictNeq (r.get? j) (b.get? j) then false
    else equalsBytesLoop r b (j + 1) rem

/-- One candidate of `UUID.equals` compared byte-for-byte (16 iterations)
against the reference bytes. -/
def equalsBytes (r b : List Nat) : Bool := equalsBytesLoop r b 0 16

/-- The outer loop of `UUID.equals` over the arguments after the first:
`false` on a null argument or a byte mismatch, `true` when exhausted. -/
def equalsLoop (ref : List Nat) : List (Option Input) → Except String Bool
  | [] => .ok true
  | none :: _ => .ok false
  | some x :: rest =>
    (parse (some x)).bind fun b =>
      if equalsBytes ref b then equalsLoop ref rest else .ok false

/-- `UUID.equals(...inputs)`: throws with fewer than two arguments; `false`
if the first argument is null; otherwise parses the first argument as the
reference and scans the rest. -/
def equalsList : List (Option Input) → Except String Bool
  | i0 :: rest@(_ :: _) =>
    match i0 with
    | none => .ok false
    | some x => (parse (some x)).bind fun ref => equalsLoop ref rest
  | _ => .error "At least two UUIDs required for comparison"

/-- `toHex()` (memoization dropped): the codec's encoding of the bytes. -/
def toHex (u : UUID) : String := Uint8ArrayUtils.toHex u.bytes

/-- `UUID.formatHex`: throws unless the hex string has 32 characters, then
rebuilds `slice(0,8) + "-" + slice(8,12) + "-" + slice(12,16) + "-" +
slice(16,20) + "-" + slice(20)`. -/
def formatHex (hex : String) : Except String String :=
  if hex.length = 32 then
    .ok (String.mk (hex.data.take 8 ++ ['-'] ++ (hex.data.drop 8).take 4 ++
      ['-'] ++ (hex.data.drop 12).take 4 ++ ['-'] ++ (hex.data.drop 16).take 4 ++
      ['-'] ++ hex.data.drop 20))
  else .error "hex length should be 32"

/-- `toString()` (memoization dropped): `formatHex(this.toHex())`. -/
def toStr (u : UUID) : Except String String := formatHex (toHex u)

/-- `toBytes()`: a copy of the raw byte array. -/
def toBytes (u : UUID) : List Nat := u.bytes

end UUID

deriving instance DecidableEq for Except

/-- The spec-side semantic validity predicate on a byte form (spec §4.3
`isValidByteForm`): length 16, version nibble (the high four bits of byte 6)
in `[1,5]`, and variant bits (the top two bits of byte 8) equal to `0b10`.
For bytes below 256, `b / 16` is the high nibble and `b / 64` the top two
bits. -/
def validBytesSpec (b : List Nat) : Prop :=
  b.length = 16 ∧ 1 ≤ b.getD 6 0 / 16 ∧ b.getD 6 0 / 16 ≤ 5 ∧ b.getD 8 0 / 64 = 2

/-- Side condition of the `Uint8Array` model: every entry of a real
`Uint8Array` (also one held inside a `UUID` instance) is below 256. -/
def inputBytesBounded : Option Input → Prop
  | some (Input.bytes b) => ∀ x ∈ b, x < 256
  | some (Input.uuid u) => ∀ x ∈ u.bytes, x < 256
  | _ => True

/-- The spec-side characterisation of `isValid` (spec §4.3): non-null, and a
36-character string matching the RFC form, a 32-character string matching the
hex form, or a byte sequence (raw or held in a `UUID`) passing the byte-form
validity predicate. -/
def isValidSpec : Option Input → Prop
  | none => False
  | some (Input.str s) => (s.length = 36 ∧ UUID.isValidString s = true) ∨
      (s.length = 32 ∧ UUID.isValidHex s = true)
  | some (Input.bytes b) => validBytesSpec b
  | some (Input.uuid u) => validBytesSpec u.bytes
  | some Input.other => False

theorem jsStrictNeq_self (x : Option Nat) : UUID.jsStrictNeq x x = false := by
  cases x <;> simp [UUID.jsStrictNeq]

theorem jsStrictNeq_some_iff (x y : Nat) :
    UUID.jsStrictNeq (some x) (some y) = false ↔ x = y := by
  simp [UUID.jsStrictNeq]

theorem compareLoop_self (a : List Nat) :
    ∀ rem i, UUID.compareLoop a a i rem = 0 := by
  intro rem
  induction rem with
  | zero => intro i; rfl
  | succ n ih =>
    intro i
    simp [UUID.compareLoop, jsStrictNeq_self, ih]

theorem get?_isSome_of_lt {a : List Nat} {j : Nat} (h : j < a.length) :
    ∃ x, a.get? j = some x := by
  cases hx : a.get? j with
  | none => rw [List.get?_eq_none] at hx; omega
  | some x => exact ⟨x, rfl⟩

theorem jsStrictNeq_some_true {x y : Nat} (h : x ≠ y) :
    UUID.jsStrictNeq (some x) (some y) = true := by
  simp [UUID.jsStrictNeq, bne_iff_ne, h]

theorem jsLtNum_some {x y : Nat} : UUID.jsLtNum (some x) (some y) = decide (x < y) := rfl

theorem compareLoop_succ (a b : List Nat) (i n : Nat) :
    UUID.compareLoop a b i (n + 1) =
      if UUID.jsStrictNeq (a.get? i) (b.get? i) then
        (if UUID.jsLtNum (a.get? i) (b.get? i) then (-1 : Int) else 1)
      else UUID.compareLoop a b (i + 1) n := rfl

theorem equalsBytesLoop_succ (r b : List Nat) (j n : Nat) :
    UUID.equalsBytesLoop r b j (n + 1) =
      if UUID.jsStrictNeq (r.get? j) (b.get? j) then false
      else UUID.equalsBytesLoop r b (j + 1) n := rfl

theorem compareLoop_antisymm (a b : List Nat) :
    ∀ rem i, (∀ j, i ≤ j → j < i + rem → j < a.length ∧ j < b.length) →
      UUID.compareLoop b a i rem = - UUID.compareLoop a b i rem := by
  intro rem
  induction rem with
  | zero => intro i _; rfl
  | succ n ih =>
    intro i hw
    obtain ⟨hia, hib⟩ := hw i (Nat.le_refl i) (by omega)
    obtain ⟨x, hx⟩ := get?_isSome_of_lt hia
    obtain ⟨y, hy⟩ := get?_isSome_of_lt hib
    rw [compareLoop_succ a b, compareLoop_succ b a, hx, hy]
    by_cases hxy : x = y
    · subst hxy
      rw [if_neg (by simp [(jsStrictNeq_some_iff x x).mpr rfl]),
        if_neg (by simp [(jsStrictNeq_some_iff x x).mpr rfl])]
      exact ih (i + 1) (fun j h1 h2 => hw j (by omega) (by omega))
    · rw [if_pos (jsStrictNeq_some_true hxy),
        if_pos (jsStrictNeq_some_true (fun h => hxy h.symm)), jsLtNum_some, jsLtNum_some]
      rcases Nat.lt_or_ge x y with hlt | hge
      · rw [if_pos (decide_eq_true hlt), if_neg (by simp [decide_eq_false (show ¬ y < x by omega)])]
        simp
      · have hgt : y < x := by omega
        rw [if_pos (decide_eq_true hgt), if_neg (by simp [decide_eq_false (show ¬ x < y by omega)])]

theorem compareLoop_eq_zero_iff (a b : List Nat) :
    ∀ rem i, (UUID.compareLoop a b i rem = 0 ↔
      ∀ j, i ≤ j → j < i + rem → UUID.jsStrictNeq (a.get? j) (b.get? j) = false) := by
  intro rem
  induction rem with
  | zero =>
    intro i
    constructor
    · intro _ j h1 h2; omega
    · intro _; rfl
  | succ n ih =>
    intro i
    rw [compareLoop_succ]
    by_cases hne : UUID.jsStrictNeq (a.get? i) (b.get? i) = true
    · rw [if_pos hne]
      constructor
      · intro h
        by_cases hlt : UUID.jsLtNum (a.get? i) (b.get? i) = true
        · rw [if_pos hlt] at h; simp at h
        · rw [if_neg hlt] at h; simp at h
      · intro h
        have := h i (Nat.le_refl i) (by omega)
        rw [hne] at this
        exact absurd this (by simp)
    · have hne' : UUID.jsStrictNeq (a.get? i) (b.get? i) = false := by
        simpa using hne
      rw [if_neg hne]
      rw [ih (i + 1)]
      constructor
      · intro h j h1 h2
        rcases Nat.eq_or_lt_of_le h1 with heq | hlt
        · subst heq; exact hne'
        · exact h j hlt (by omega)
      · intro h j h1 h2
        exact h j (by omega) (by omega)

theorem compareLoop_trans_le (a b c : List Nat) :
    ∀ rem i, (∀ j, i ≤ j → j < i + rem → j < a.length ∧ j < b.length ∧ j < c.length) →
      UUID.compareLoop a b i rem ≤ 0 → UUID.compareLoop b c i rem ≤ 0 →
      UUID.compareLoop a c i rem ≤ 0 := by
  intro rem
  induction rem with
  | zero => intro i _ _ _; simp [UUID.compareLoop]
  | succ n ih =>
    intro i hw hab hbc
    obtain ⟨hia, hib, hic⟩ := hw i (Nat.le_refl i) (by omega)
    obtain ⟨x, hx⟩ := get?_isSome_of_lt hia
    obtain ⟨y, hy⟩ := get?_isSome_of_lt hib
    obtain ⟨z, hz⟩ := get?_isSome_of_lt hic
    rw [compareLoop_succ a b, hx, hy] at hab
    rw [compareLoop_succ b c, hy, hz] at hbc
    rw [compareLoop_succ a c, hx, hz]
    by_cases hxy : x = y
    · subst hxy
      rw [if_neg (by simp [(jsStrictNeq_some_iff x x).mpr rfl])] at hab
      by_cases hyz : x = z
      · subst hyz
        rw [if_neg (by simp [(jsStrictNeq_some_iff x x).mpr rfl])] at hbc
        rw [if_neg (by simp [(jsStrictNeq_some_iff x x).mpr rfl])]
        exact ih (i + 1) (fun j h1 h2 => hw j (by omega) (by omega)) hab hbc
      · rw [if_pos (jsStrictNeq_some_true hyz), jsLtNum_some] at hbc
        have hxltz : x < z := by
          by_contra hge
          rw [if_neg (by simp [decide_eq_false hge])] at hbc
          omega
        rw [if_pos (jsStrictNeq_some_true (show x ≠ z by omega)), jsLtNum_some,
          if_pos (decide_eq_true hxltz)]
        omega
    · rw [if_pos (jsStrictNeq_some_true hxy), jsLtNum_some] at hab
      have hxlty : x < y := by
        by_contra hge
        rw [if_neg (by simp [decide_eq_false hge])] at hab
        omega
      have hyLez : y ≤ z := by
        by_cases hyz : y = z
        · omega
        · rw [if_pos (jsStrictNeq_some_true hyz), jsLtNum_some] at hbc
          by_contra hge
          rw [if_neg (by simp [decide_eq_false (show ¬ y < z by omega)])] at hbc
          omega
      rw [if_pos (jsStrictNeq_some_true (show x ≠ z by omega)), jsLtNum_some,
        if_pos (decide_eq_true (show x < z by omega))]
      omega

theorem equalsBytesLoop_iff (r b : List Nat) :
    ∀ rem j, (UUID.equalsBytesLoop r b j rem = true ↔ UUID.compareLoop r b j rem = 0) := by
  intro rem
  induction rem with
  | zero => intro j; simp [UUID.equalsBytesLoop, UUID.compareLoop]
  | succ n ih =>
    intro j
    rw [equalsBytesLoop_succ, compareLoop_succ]
    by_cases hne : UUID.jsStrictNeq (r.get? j) (b.get? j) = true
    · rw [if_pos hne, if_pos hne]
      by_cases hlt : UUID.jsLtNum (r.get? j) (b.get? j) = true
      · rw [if_pos hlt]; simp
      · rw [if_neg hlt]; simp
    · rw [if_neg hne, if_neg hne]
      exact ih (j + 1)

theorem compareBytes_eq_zero_iff_eq {a b : List Nat}
    (ha : a.length = 16) (hb : b.length = 16) :
    UUID.compareBytes a b = 0 ↔ a = b := by
  rw [UUID.compareBytes, compareLoop_eq_zero_iff]
  constructor
  · intro h
    apply List.ext
    intro n
    by_cases hn : n < 16
    · obtain ⟨x, hx⟩ := get?_isSome_of_lt (a := a) (j := n) (by omega)
      obtain ⟨y, hy⟩ := get?_isSome_of_lt (a := b) (j := n) (by omega)
      have := h n (Nat.zero_le n) (by omega)
      rw [hx, hy, jsStrictNeq_some_iff] at this
      rw [hx, hy, this]
    · rw [List.get?_eq_none.mpr (by omega), List.get?_eq_none.mpr (by omega)]
  · intro h; subst h
    intro j _ _; exact jsStrictNeq_self _

theorem between_iff {lo hi n : Nat} : between lo hi n = true ↔ (lo ≤ n ∧ n ≤ hi) := by
  simp [between]

theorem isHexDigit_iff {c : Char} : isHexDigit c = true ↔
    (48 ≤ c.toNat ∧ c.toNat ≤ 57) ∨ (97 ≤ c.toNat ∧ c.toNat ≤ 102) ∨
    (65 ≤ c.toNat ∧ c.toNat ≤ 70) := by
  simp only [isHexDigit, between, Bool.or_eq_true, Bool.and_eq_true, decide_eq_true_eq]
  tauto

theorem isVersionChar_hexDigit {c : Char} (h : isVersionChar c = true) : isHexDigit c = true := by
  rw [isVersionChar, between_iff] at h
  rw [isHexDigit_iff]
  omega

theorem isVariantChar_hexDigit {c : Char} (h : isVariantChar c = true) : isHexDigit c = true := by
  simp only [isVariantChar, Bool.or_eq_true, decide_eq_true_eq] at h
  rw [isHexDigit_iff]
  omega

theorem bne_dash_of_code {c : Char} (h : c.toNat ≠ 45) : (c != '-') = true := by
  rw [bne_iff_ne]
  intro heq
  subst heq
  exact h rfl

theorem isHexDigit_code_ne_dash {c : Char} (h : isHexDigit c = true) : c.toNat ≠ 45 := by
  rw [isHexDigit_iff] at h
  omega

theorem isVersionChar_code_ne_dash {c : Char} (h : isVersionChar c = true) : c.toNat ≠ 45 := by
  rw [isVersionChar, between_iff] at h
  omega

theorem isVariantChar_code_ne_dash {c : Char} (h : isVariantChar c = true) : c.toNat ≠ 45 := by
  simp only [isVariantChar, Bool.or_eq_true, decide_eq_true_eq] at h
  omega

theorem toLowerChar_dash : toLowerChar '-' = '-' := by decide

theorem hexDigitVal_of_hexDigit {c : Char} (h : isHexDigit c = true) :
    ∃ v, hexDigitVal c = some v ∧ v < 16 ∧ hexChar v = toLowerChar c := by
  rw [isHexDigit_iff] at h
  rcases h with h | h | h
  · refine ⟨c.toNat - 48, ?_, by omega, ?_⟩
    · rw [hexDigitVal, if_pos (between_iff.mpr h)]
    · rw [hexChar, if_pos (by omega),
        show 48 + (c.toNat - 48) = c.toNat by omega, Char.ofNat_toNat,
        toLowerChar, if_neg (by rw [between_iff]; omega)]
  · refine ⟨c.toNat - 87, ?_, by omega, ?_⟩
    · rw [hexDigitVal, if_neg (by rw [between_iff]; omega), if_pos (between_iff.mpr h)]
    · rw [hexChar, if_neg (by omega),
        show 87 + (c.toNat - 87) = c.toNat by omega, Char.ofNat_toNat,
        toLowerChar, if_neg (by rw [between_iff]; omega)]
  · refine ⟨c.toNat - 55, ?_, by omega, ?_⟩
    · rw [hexDigitVal, if_neg (by rw [between_iff]; omega),
        if_neg (by rw [between_iff]; omega), if_pos (between_iff.mpr h)]
    · rw [hexChar, if_neg (by omega),
        show 87 + (c.toNat - 55) = c.toNat + 32 by omega,
        toLowerChar, if_pos (between_iff.mpr (by omega))]

theorem hexDigit_of_hexDigitVal {c : Char} {v : Nat} (h : hexDigitVal c = some v) :
    isHexDigit c = true := by
  rw [isHexDigit_iff]
  rw [hexDigitVal] at h
  split_ifs at h with h1 h2 h3
  · exact Or.inl (between_iff.mp h1)
  · exact Or.inr (Or.inl (between_iff.mp h2))
  · exact Or.inr (Or.inr (between_iff.mp h3))

theorem decodePairs_cons2 (c1 c2 : Char) (rest : List Char) :
    decodePairs (c1 :: c2 :: rest) =
      match hexDigitVal c1, hexDigitVal c2 with
      | some h, some l => (decodePairs rest).map (fun bs => (h * 16 + l) :: bs)
      | _, _ => .error "FormatError: invalid hex character" := rfl

theorem decodePairs_ok : ∀ cs : List Char, (∀ c ∈ cs, isHexDigit c = true) →
    cs.length % 2 = 0 →
    ∃ bs : List Nat, decodePairs cs = Except.ok bs ∧
      bs.length + bs.length = cs.length ∧ (∀ x ∈ bs, x < 256) ∧
      bytesToHexChars bs = cs.map toLowerChar
  | [], _, _ => ⟨[], rfl, rfl, by simp, rfl⟩
  | [c], _, hev => absurd hev (by simp)
  | c1 :: c2 :: rest, hhex, hev => by
    obtain ⟨v1, hv1, hlt1, hc1⟩ := hexDigitVal_of_hexDigit (hhex c1 (by simp))
    obtain ⟨v2, hv2, hlt2, hc2⟩ := hexDigitVal_of_hexDigit (hhex c2 (by simp))
    obtain ⟨bs, hbs, hlen, hbnd, henc⟩ :=
      decodePairs_ok rest (fun c hc => hhex c (by simp [hc])) (by simp at hev ⊢; omega)
    refine ⟨(v1 * 16 + v2) :: bs, ?_, by simp at hlen ⊢; omega, ?_, ?_⟩
    · rw [decodePairs_cons2, hv1, hv2, hbs]
      rfl
    · intro x hx
      rcases List.mem_cons.mp hx with hx | hx
      · omega
      · exact hbnd x hx
    · rw [bytesToHexChars, show (v1 * 16 + v2) / 16 = v1 by omega,
        show (v1 * 16 + v2) % 16 = v2 by omega, hc1, hc2, henc]
      simp

theorem decodePairs_hex : ∀ (cs : List Char) (bs : List Nat), decodePairs cs = .ok bs →
    ∀ c ∈ cs, isHexDigit c = true
  | [], _, _ => by simp
  | [c], bs, h => by
    rw [show decodePairs [c] = .error "FormatError: odd hex length" from rfl] at h
    exact absurd h (by simp)
  | c1 :: c2 :: rest, bs, h => by
    rw [decodePairs_cons2] at h
    cases h1 : hexDigitVal c1 with
    | none =>
      rw [h1] at h
      cases h2 : hexDigitVal c2 <;> rw [h2] at h <;> exact absurd h (by simp)
    | some v1 =>
      rw [h1] at h
      cases h2 : hexDigitVal c2 with
      | none => rw [h2] at h; exact absurd h (by simp)
      | some v2 =>
        rw [h2] at h
        cases hr : decodePairs rest with
        | error e => rw [hr] at h; exact absurd h (by simp [Except.map])
        | ok bs' =>
          have ih := decodePairs_hex rest bs' hr
          intro c hc
          rcases List.mem_cons.mp hc with hc | hc
          · subst hc; exact hexDigit_of_hexDigitVal h1
          · rcases List.mem_cons.mp hc with hc | hc
            · subst hc; exact hexDigit_of_hexDigitVal h2
            · exact ih c hc

theorem matchClass_cons (p : Char → Bool) (n : Nat) (c : Char) (cs : List Char) :
    matchClass p (n + 1) (c :: cs) = if p c then matchClass p n cs else none := rfl

theorem matchClass_some (p : Char → Bool) :
    ∀ (n : Nat) (cs rest : List Char), matchClass p n cs = some rest →
      ∃ pre, cs = pre ++ rest ∧ pre.length = n ∧ ∀ c ∈ pre, p c = true := by
  intro n
  induction n with
  | zero =>
    intro cs rest h
    refine ⟨[], ?_, rfl, by simp⟩
    simpa [matchClass] using h
  | succ m ih =>
    intro cs rest h
    cases cs with
    | nil => exact absurd h (by simp [matchClass])
    | cons c cs' =>
      rw [matchClass_cons] at h
      by_cases hp : p c = true
      · rw [if_pos hp] at h
        obtain ⟨pre, h1, h2, h3⟩ := ih cs' rest h
        refine ⟨c :: pre, by simp [h1], by simp [h2], ?_⟩
        intro d hd
        rcases List.mem_cons.mp hd with hd | hd
        · subst hd; exact hp
        · exact h3 d hd
      · rw [if_neg hp] at h
        exact absurd h (by simp)

theorem hexMatch_spec {cs : List Char} (h : hexMatch cs = true) :
    cs.length = 32 ∧ ∀ c ∈ cs, isHexDigit c = true := by
  rw [hexMatch, beq_iff_eq] at h
  obtain ⟨r5, hX5, m6⟩ := Option.bind_eq_some.mp h
  obtain ⟨r4, hX4, m5⟩ := Option.bind_eq_some.mp hX5
  obtain ⟨r3, hX3, m4⟩ := Option.bind_eq_some.mp hX4
  obtain ⟨r2, hX2, m3⟩ := Option.bind_eq_some.mp hX3
  obtain ⟨r1, hX1, m2⟩ := Option.bind_eq_some.mp hX2
  obtain ⟨r0, m0, m1⟩ := Option.bind_eq_some.mp hX1
  obtain ⟨p0, e0, l0, a0⟩ := matchClass_some _ _ _ _ m0
  obtain ⟨p1, e1, l1, a1⟩ := matchClass_some _ _ _ _ m1
  obtain ⟨p2, e2, l2, a2⟩ := matchClass_some _ _ _ _ m2
  obtain ⟨p3, e3, l3, a3⟩ := matchClass_some _ _ _ _ m3
  obtain ⟨p4, e4, l4, a4⟩ := matchClass_some _ _ _ _ m4
  obtain ⟨p5, e5, l5, a5⟩ := matchClass_some _ _ _ _ m5
  obtain ⟨p6, e6, l6, a6⟩ := matchClass_some _ _ _ _ m6
  subst e0 e1 e2 e3 e4 e5 e6
  constructor
  · simp [List.length_append, l0, l1, l2, l3, l4, l5, l6]
  · intro c hc
    simp only [List.mem_append, List.append_nil] at hc
    rcases hc with hc | hc | hc | hc | hc | hc | hc
    · exact a0 c hc
    · exact a1 c hc
    · exact isVersionChar_hexDigit (a2 c hc)
    · exact a3 c hc
    · exact isVariantChar_hexDigit (a4 c hc)
    · exact a5 c hc
    · exact a6 c hc

theorem rfcMatch_spec {cs : List Char} (h : rfcMatch cs = true) :
    ∃ (A B C D E : List Char) (v w : Char),
      cs = A ++ ['-'] ++ (B ++ (['-'] ++ ([v] ++ (C ++ (['-'] ++ ([w] ++
        (D ++ (['-'] ++ E)))))))) ∧
      A.length = 8 ∧ B.length = 4 ∧ C.length = 3 ∧ D.length = 3 ∧ E.length = 12 ∧
      (∀ c ∈ A, isHexDigit c = true) ∧ (∀ c ∈ B, isHexDigit c = true) ∧
      (∀ c ∈ C, isHexDigit c = true) ∧ (∀ c ∈ D, isHexDigit c = true) ∧
      (∀ c ∈ E, isHexDigit c = true) ∧
      isVersionChar v = true ∧ isVariantChar w = true := by
  rw [rfcMatch, beq_iff_eq] at h
  obtain ⟨r9, hX9, m10⟩ := Option.bind_eq_some.mp h
  obtain ⟨r8, hX8, m9⟩ := Option.bind_eq_some.mp hX9
  obtain ⟨r7, hX7, m8⟩ := Option.bind_eq_some.mp hX8
  obtain ⟨r6, hX6, m7⟩ := Option.bind_eq_some.mp hX7
  obtain ⟨r5, hX5, m6⟩ := Option.bind_eq_some.mp hX6
  obtain ⟨r4, hX4, m5⟩ := Option.bind_eq_some.mp hX5
  obtain ⟨r3, hX3, m4⟩ := Option.bind_eq_some.mp hX4
  obtain ⟨r2, hX2, m3⟩ := Option.bind_eq_some.mp hX3
  obtain ⟨r1, hX1, m2⟩ := Option.bind_eq_some.mp hX2
  obtain ⟨r0, m0, m1⟩ := Option.bind_eq_some.mp hX1
  obtain ⟨p0, e0, l0, a0⟩ := matchClass_some _ _ _ _ m0
  obtain ⟨p1, e1, l1, a1⟩ := matchClass_some _ _ _ _ m1
  obtain ⟨p2, e2, l2, a2⟩ := matchClass_some _ _ _ _ m2
  obtain ⟨p3, e3, l3, a3⟩ := matchClass_some _ _ _ _ m3
  obtain ⟨p4, e4, l4, a4⟩ := matchClass_some _ _ _ _ m4
  obtain ⟨p5, e5, l5, a5⟩ := matchClass_some _ _ _ _ m5
  obtain ⟨p6, e6, l6, a6⟩ := matchClass_some _ _ _ _ m6
  obtain ⟨p7, e7, l7, a7⟩ := matchClass_some _ _ _ _ m7
  obtain ⟨p8, e8, l8, a8⟩ := matchClass_some _ _ _ _ m8
  obtain ⟨p9, e9, l9, a9⟩ := matchClass_some _ _ _ _ m9
  obtain ⟨p10, e10, l10, a10⟩ := matchClass_some _ _ _ _ m10
  obtain ⟨d1, hd1⟩ := List.length_eq_one.mp l1
  obtain ⟨d2, hd2⟩ := List.length_eq_one.mp l3
  obtain ⟨v, hv⟩ := List.length_eq_one.mp l4
  obtain ⟨d3, hd3⟩ := List.length_eq_one.mp l6
  obtain ⟨w, hw⟩ := List.length_eq_one.mp l7
  obtain ⟨d4, hd4⟩ := List.length_eq_one.mp l9
  have hd1' : d1 = '-' := by
    have := a1 d1 (by simp [hd1])
    rw [isDash, beq_iff_eq] at this
    exact this
  have hd2' : d2 = '-' := by
    have := a3 d2 (by simp [hd2])
    rw [isDash, beq_iff_eq] at this
    exact this
  have hd3' : d3 = '-' := by
    have := a6 d3 (by simp [hd3])
    rw [isDash, beq_iff_eq] at this
    exact this
  have hd4' : d4 = '-' := by
    have := a9 d4 (by simp [hd4])
    rw [isDash, beq_iff_eq] at this
    exact this
  subst e0 e1 e2 e3 e4 e5 e6 e7 e8 e9 e10 hd1 hd2 hv hd3 hw hd4 hd1' hd2' hd3' hd4'
  refine ⟨p0, p2, p5, p8, p10, v, w, ?_, l0, l2, l5, l8, by simpa using l10,
    a0, a2, a5, a8, fun c hc => a10 c (by simpa using hc),
    a4 v (by simp), a7 w (by simp)⟩
  simp

theorem slices_of_chunks (A B C D E : List Char) (hA : A.length = 8) (hB : B.length = 4)
    (hC : C.length = 4) (hD : D.length = 4) :
    (A ++ (B ++ (C ++ (D ++ E)))).take 8 = A ∧
    ((A ++ (B ++ (C ++ (D ++ E)))).drop 8).take 4 = B ∧
    ((A ++ (B ++ (C ++ (D ++ E)))).drop 12).take 4 = C ∧
    ((A ++ (B ++ (C ++ (D ++ E)))).drop 16).take 4 = D ∧
    (A ++ (B ++ (C ++ (D ++ E)))).drop 20 = E := by
  have d8 : (A ++ (B ++ (C ++ (D ++ E)))).drop 8 = B ++ (C ++ (D ++ E)) :=
    List.drop_left' hA
  have d12 : (A ++ (B ++ (C ++ (D ++ E)))).drop 12 = C ++ (D ++ E) := by
    rw [show A ++ (B ++ (C ++ (D ++ E))) = (A ++ B) ++ (C ++ (D ++ E)) by
      rw [List.append_assoc]]
    exact List.drop_left' (by rw [List.length_append, hA, hB])
  have d16 : (A ++ (B ++ (C ++ (D ++ E)))).drop 16 = D ++ E := by
    rw [show A ++ (B ++ (C ++ (D ++ E))) = ((A ++ B) ++ C) ++ (D ++ E) by
      simp [List.append_assoc]]
    exact List.drop_left' (by simp [List.length_append, hA, hB, hC])
  have d20 : (A ++ (B ++ (C ++ (D ++ E)))).drop 20 = E := by
    rw [show A ++ (B ++ (C ++ (D ++ E))) = (((A ++ B) ++ C) ++ D) ++ E by
      simp [List.append_assoc]]
    exact List.drop_left' (by simp [List.length_append, hA, hB, hC, hD])
  refine ⟨List.take_left' hA, ?_, ?_, ?_, d20⟩
  · rw [d8]; exact List.take_left' hB
  · rw [d12]; exact List.take_left' hC
  · rw [d16]; exact List.take_left' hD

theorem filter_dash_single {c : Char} (hc : c.toNat ≠ 45) :
    List.filter (fun x => x != '-') [c] = [c] := by
  apply List.filter_eq_self.mpr
  intro a ha
  rw [List.mem_singleton] at ha
  subst ha
  exact bne_dash_of_code hc

theorem filter_dash_dash : List.filter (fun x => x != '-') (['-'] : List Char) = [] := by
  decide

theorem filter_hex_chunk {A : List Char} (hA : ∀ c ∈ A, isHexDigit c = true) :
    List.filter (fun x => x != '-') A = A :=
  List.filter_eq_self.mpr fun c hc => bne_dash_of_code (isHexDigit_code_ne_dash (hA c hc))

theorem fromHex_toHex (h : String) (hv : UUID.isValidHex h = true) :
    ∃ u : UUID, UUID.fromHex h = .ok u ∧ u.bytes.length = 16 ∧ (∀ x ∈ u.bytes, x < 256) ∧
      UUID.toHex u = lowerStr h := by
  rw [UUID.isValidHex] at hv
  obtain ⟨hlen, hhex⟩ := hexMatch_spec hv
  obtain ⟨bs, hbs, hblen, hbnd, henc⟩ := decodePairs_ok h.data hhex (by omega)
  refine ⟨⟨bs⟩, ?_, by simp; omega, hbnd, ?_⟩
  · have hlen2 : h.length = 32 := hlen
    rw [UUID.fromHex, UUID.parseHex, Uint8ArrayUtils.fromHex, if_pos hlen2, hbs]
    rfl
  · rw [UUID.toHex, Uint8ArrayUtils.toHex]
    show String.mk (bytesToHexChars bs) = lowerStr h
    rw [henc]
    rfl

theorem formatHex_mk (L : List Char) (h32 : L.length = 32) :
    UUID.formatHex (String.mk L) = .ok (String.mk (L.take 8 ++ ['-'] ++ (L.drop 8).take 4 ++
      ['-'] ++ (L.drop 12).take 4 ++ ['-'] ++ (L.drop 16).take 4 ++ ['-'] ++ L.drop 20)) := by
  rw [UUID.formatHex, if_pos (show (String.mk L).length = 32 from h32)]

theorem fromString_toStr (s : String) (hv : UUID.isValidString s = true) :
    ∃ u : UUID, UUID.fromString s = .ok u ∧ u.bytes.length = 16 ∧
      (∀ x ∈ u.bytes, x < 256) ∧ UUID.toStr u = .ok (lowerStr s) := by
  rw [UUID.isValidString] at hv
  obtain ⟨A, B, C, D, E, v, w, hcs, lA, lB, lC, lD, lE, aA, aB, aC, aD, aE, hvv, hvw⟩ :=
    rfcMatch_spec hv
  have hstrip : (UUID.stripHyphens s).data =
      A ++ (B ++ (([v] ++ C) ++ (([w] ++ D) ++ E))) := by
    show List.filter (fun x => x != '-') s.data = _
    rw [hcs]
    simp only [List.filter_append]
    rw [filter_hex_chunk aA, filter_hex_chunk aB, filter_hex_chunk aC, filter_hex_chunk aD,
      filter_hex_chunk aE, filter_dash_dash,
      filter_dash_single (isVersionChar_code_ne_dash hvv),
      filter_dash_single (isVariantChar_code_ne_dash hvw)]
    simp [List.append_assoc]
  have hstripHex : ∀ c ∈ (UUID.stripHyphens s).data, isHexDigit c = true := by
    rw [hstrip]
    intro c hc
    simp only [List.mem_append, List.mem_singleton] at hc
    rcases hc with hc | hc | (hc | hc) | (hc | hc) | hc
    · exact aA c hc
    · exact aB c hc
    · subst hc; exact isVersionChar_hexDigit hvv
    · exact aC c hc
    · subst hc; exact isVariantChar_hexDigit hvw
    · exact aD c hc
    · exact aE c hc
  have hstripLen : (UUID.stripHyphens s).data.length = 32 := by
    rw [hstrip]; simp [lA, lB, lC, lD, lE]
  obtain ⟨bs, hbs, hblen, hbnd, henc⟩ := decodePairs_ok _ hstripHex (by omega)
  have hlen2 : (UUID.stripHyphens s).length = 32 := hstripLen
  refine ⟨⟨bs⟩, ?_, by simp; omega, hbnd, ?_⟩
  · rw [UUID.fromString, UUID.parseString, UUID.parseHex, Uint8ArrayUtils.fromHex,
      if_pos hlen2, hbs]
    rfl
  · have hTdata : bytesToHexChars bs =
        (A.map toLowerChar) ++ ((B.map toLowerChar) ++
          (([toLowerChar v] ++ C.map toLowerChar) ++
            (([toLowerChar w] ++ D.map toLowerChar) ++ E.map toLowerChar))) := by
      rw [henc, hstrip]
      simp [List.append_assoc]
    have hT32 : ((A.map toLowerChar) ++ ((B.map toLowerChar) ++
          (([toLowerChar v] ++ C.map toLowerChar) ++
            (([toLowerChar w] ++ D.map toLowerChar) ++ E.map toLowerChar)))).length = 32 := by
      simp [lA, lB, lC, lD, lE]
    obtain ⟨e1, e2, e3, e4, e5⟩ := slices_of_chunks (A.map toLowerChar) (B.map toLowerChar)
      ([toLowerChar v] ++ C.map toLowerChar) ([toLowerChar w] ++ D.map toLowerChar)
      (E.map toLowerChar) (by simp [lA]) (by simp [lB]) (by simp [lC]) (by simp [lD])
    rw [UUID.toStr, show UUID.toHex ⟨bs⟩ = String.mk (bytesToHexChars bs) from rfl,
      hTdata, formatHex_mk _ hT32, e1, e2, e3, e4, e5]
    apply congrArg
    rw [lowerStr]
    apply congrArg
    rw [hcs]
    simp [toLowerChar_dash, List.append_assoc]

theorem parseString_ok_iff (s : String) :
    (∃ b, UUID.parseString s = .ok b) ↔
      ((UUID.stripHyphens s).length = 32 ∧
        ∀ c ∈ (UUID.stripHyphens s).data, isHexDigit c = true) := by
  rw [UUID.parseString, UUID.parseHex, Uint8ArrayUtils.fromHex]
  by_cases h32 : (UUID.stripHyphens s).length = 32
  · rw [if_pos h32]
    constructor
    · rintro ⟨b, hb⟩
      exact ⟨h32, decodePairs_hex _ b hb⟩
    · rintro ⟨_, hhex⟩
      obtain ⟨bs, hbs, _, _, _⟩ := decodePairs_ok _ hhex
        (by have h : (UUID.stripHyphens s).data.length = 32 := h32; omega)
      exact ⟨bs, hbs⟩
  · rw [if_neg h32]
    constructor
    · rintro ⟨b, hb⟩
      exact absurd hb (by simp)
    · rintro ⟨hl, _⟩
      exact absurd hl h32

theorem isValidString_length {s : String} (h : UUID.isValidString s = true) :
    s.length = 36 := by
  rw [UUID.isValidString] at h
  obtain ⟨A, B, C, D, E, v, w, hcs, lA, lB, lC, lD, lE, _⟩ := rfcMatch_spec h
  show s.data.length = 36
  rw [hcs]
  simp [lA, lB, lC, lD, lE]

theorem isValidHex_length {s : String} (h : UUID.isValidHex s = true) :
    s.length = 32 := by
  rw [UUID.isValidHex] at h
  exact (hexMatch_spec h).1

set_option maxRecDepth 4096 in
theorem land_c0_div64 {x : Nat} (hx : x < 256) : (x &&& 0xc0) / 64 = x / 64 := by
  have h : ∀ y : Fin 256, (y.val &&& 0xc0) / 64 = y.val / 64 := by decide
  exact h ⟨x, hx⟩

theorem getD_mem_of_lt {b : List Nat} {i : Nat} (h : i < b.length) : b.getD i 0 ∈ b := by
  obtain ⟨x, hx⟩ := get?_isSome_of_lt h
  have : b.getD i 0 = x := by
    rw [List.getD_eq_get?, hx]
    rfl
  rw [this]
  exact List.get?_mem hx

theorem isValidBytes_spec {b : List Nat} (hb : ∀ x ∈ b, x < 256) :
    ∃ r : Bool, UUID.isValidBytes b = .ok r ∧
      (r = true ↔ (b.length = 16 ∧ 1 ≤ b.getD 6 0 / 16 ∧ b.getD 6 0 / 16 ≤ 5 ∧
        b.getD 8 0 / 64 = 2)) := by
  by_cases h16 : b.length = 16
  · rw [UUID.isValidBytes, if_pos h16, UUID.versionBytes, if_pos h16]
    have h8 : b.getD 8 0 < 256 := hb _ (getD_mem_of_lt (by omega))
    have hbridge : (b.getD 8 0 &&& 0xc0) / 64 = b.getD 8 0 / 64 := land_c0_div64 h8
    refine ⟨_, rfl, ?_⟩
    beta_reduce
    by_cases hv : b.getD 6 0 / 16 < 1 ∨ 5 < b.getD 6 0 / 16
    · rw [if_pos hv]
      simp only [Bool.false_eq_true, false_iff]
      rintro ⟨_, h1, h2, _⟩
      omega
    · rw [if_neg hv]
      by_cases hvar : (b.getD 8 0 &&& 0xc0) / 64 ≠ 2
      · rw [if_pos hvar]
        simp only [Bool.false_eq_true, false_iff]
        rintro ⟨_, _, _, h2⟩
        rw [hbridge] at hvar
        omega
      · rw [if_neg hvar]
        simp only [true_iff]
        rw [hbridge] at hvar
        refine ⟨h16, by omega, by omega, by omega⟩
  · rw [UUID.isValidBytes, if_neg h16]
    refine ⟨false, rfl, ?_⟩
    simp only [Bool.false_eq_true, false_iff]
    rintro ⟨h, _⟩
    exact h16 h

theorem except_bind_ok {ε α β : Type} (a : α) (f : α → Except ε β) :
    (Except.ok a : Except ε α).bind f = f a := rfl

theorem equalsLoop_cons_some (ref bx : List Nat) (x : Input) (rest : List (Option Input))
    (hx : UUID.parse (some x) = .ok bx) :
    UUID.equalsLoop ref (some x :: rest) =
      if UUID.equalsBytes ref bx then UUID.equalsLoop ref rest else .ok false := by
  rw [UUID.equalsLoop, hx, except_bind_ok]

theorem equalsLoop_null (ref : List Nat) :
    ∀ (rest : List (Option Input)) (k : Nat), rest.get? k = some none →
      (∀ j, j < k → ∀ x : Input, rest.get? j = some (some x) →
        ∃ bx, UUID.parse (some x) = .ok bx) →
      UUID.equalsLoop ref rest = .ok false := by
  intro rest
  induction rest with
  | nil => intro k hk _; simp at hk
  | cons i0 rest' ih =>
    intro k hk hpre
    cases k with
    | zero =>
      rw [List.get?_cons_zero] at hk
      have : i0 = none := by injection hk
      subst this
      rfl
    | succ m =>
      rw [List.get?_cons_succ] at hk
      cases i0 with
      | none => rfl
      | some x =>
        obtain ⟨bx, hbx⟩ := hpre 0 (Nat.succ_pos m) x List.get?_cons_zero
        rw [equalsLoop_cons_some ref bx x rest' hbx]
        by_cases he : UUID.equalsBytes ref bx = true
        · rw [if_pos he]
          exact ih m hk (fun j hj y hy =>
            hpre (j + 1) (by omega) y (by rwa [List.get?_cons_succ]))
        · rw [if_neg he]

theorem equalsList_cons2 (i0 i1 : Option Input) (rest : List (Option Input)) :
    UUID.equalsList (i0 :: i1 :: rest) =
      match i0 with
      | none => .ok false
      | some x => (UUID.parse (some x)).bind fun ref => UUID.equalsLoop ref (i1 :: rest) := rfl

theorem equalsList_short : ∀ inputs : List (Option Input), inputs.length < 2 →
    UUID.equalsList inputs = .error "At least two UUIDs required for comparison"
  | [], _ => rfl
  | [_], _ => rfl
  | _ :: _ :: t, h => by exact absurd h (by simp)

theorem isValid_str (s : String) :
    UUID.isValid (some (Input.str s)) =
      if s.length = 36 then .ok (UUID.isValidString s)
      else if s.length = 32 then .ok (UUID.isValidHex s)
      else .ok false := rfl

theorem parse_str (s : String) :
    UUID.parse (some (Input.str s)) =
      if s.length = 36 then UUID.parseString s
      else if s.length = 32 then UUID.parseHex s
      else .error "Invalid input string, length should be 36 or 32" := rfl

/-- Claim C1 counterexample: the 36-character nil string fails the canonical
pattern (its version character is 0 and its variant character is 0), yet the
parser accepts it and produces sixteen zero bytes instead of failing with a
FormatError; the same holds through fromString. -/
theorem claim_C1_counterexample :
    ("00000000-0000-0000-0000-000000000000" : String).length = 36 ∧
    UUID.isValidString "00000000-0000-0000-0000-000000000000" = false ∧
    UUID.parse (some (Input.str "00000000-0000-0000-0000-000000000000")) =
      .ok (List.replicate 16 0) ∧
    UUID.fromString "00000000-0000-0000-0000-000000000000" =
      .ok ⟨List.replicate 16 0⟩ :=
  ⟨rfl, by decide, by decide, by decide⟩

/-- Claim C1 (amended): for every string of length 36, parsing (via the
constructor, from, or fromString — all reach parseString) succeeds iff the
string with every hyphen removed consists of exactly 32 hexadecimal digits;
the version character, variant character and hyphen positions are never
checked by the parser (only by the separate validation predicates); when the
stripped remainder is not 32 hex digits, parsing fails with an error from the
byte codec. -/
theorem claim_C1_amended (s : String) (h36 : s.length = 36) :
    ((∃ b, UUID.parse (some (Input.str s)) = .ok b) ↔
      ((UUID.stripHyphens s).length = 32 ∧
        ∀ c ∈ (UUID.stripHyphens s).data, isHexDigit c = true)) ∧
    ((∃ u, UUID.fromString s = .ok u) ↔ (∃ b, UUID.parse (some (Input.str s)) = .ok b)) ∧
    (¬((UUID.stripHyphens s).length = 32 ∧
        ∀ c ∈ (UUID.stripHyphens s).data, isHexDigit c = true) →
      ∃ e, UUID.parse (some (Input.str s)) = .error e) := by
  have hp : UUID.parse (some (Input.str s)) = UUID.parseString s := by
    rw [parse_str, if_pos h36]
  have h1 : (∃ b, UUID.parse (some (Input.str s)) = .ok b) ↔
      ((UUID.stripHyphens s).length = 32 ∧
        ∀ c ∈ (UUID.stripHyphens s).data, isHexDigit c = true) := by
    rw [hp]
    exact parseString_ok_iff s
  refine ⟨h1, ?_, ?_⟩
  · rw [hp, UUID.fromString]
    cases hps : UUID.parseString s with
    | error e =>
      constructor
      · rintro ⟨u, hu⟩
        exact absurd hu (by simp [Except.bind])
      · rintro ⟨b, hb⟩
        exact absurd hb (by simp)
    | ok b =>
      constructor
      · intro _
        exact ⟨b, rfl⟩
      · intro _
        exact ⟨⟨b⟩, rfl⟩
  · intro hno
    cases hval : UUID.parse (some (Input.str s)) with
    | error e => exact ⟨e, rfl⟩
    | ok b => exact absurd (h1.mp ⟨b, hval⟩) hno

theorem claim_C1_witness :
    ∃ b, UUID.parse (some (Input.str "00000000-0000-0000-0000-000000000000")) = .ok b :=
  (claim_C1_amended "00000000-0000-0000-0000-000000000000" (by decide)).1.mpr (by decide)

/-- Claim C2: evaluation at the failing input. A 3-byte Uint8Array is not
rejected: parseBytes never checks the length (contradicting its own doc
comment), so fromBytes returns a UUID instance whose bytes field has
length 3, violating the documented bytes-length-16 invariant instead of
failing with a FormatError. -/
theorem claim_C2_bug_eval :
    UUID.fromBytes [1, 2, 3] = .ok ⟨[1, 2, 3]⟩ ∧
    UUID.parseBytes [1, 2, 3] = .ok [1, 2, 3] ∧
    (UUID.mk [1, 2, 3]).bytes.length ≠ 16 :=
  ⟨rfl, rfl, by decide⟩

/-- Claim C3: for every 16-byte sequence whose version nibble (high four bits
of byte 6) is in [1,5] and whose variant bits (top two bits of byte 8) are
0b10, fromBytes succeeds, toBytes returns the same bytes, and the byte-form
validation predicate isValidBytes returns true. -/
theorem claim_C3_roundtrip (b : List Nat) (hlen : b.length = 16) (hb : ∀ x ∈ b, x < 256)
    (hv1 : 1 ≤ b.getD 6 0 / 16) (hv2 : b.getD 6 0 / 16 ≤ 5) (hvar : b.getD 8 0 / 64 = 2) :
    (∃ u, UUID.fromBytes b = .ok u ∧ UUID.toBytes u = b) ∧
    UUID.isValidBytes b = .ok true := by
  refine ⟨⟨⟨b⟩, rfl, rfl⟩, ?_⟩
  obtain ⟨r, hr, hiff⟩ := isValidBytes_spec hb
  rw [hr, hiff.mpr ⟨hlen, hv1, hv2, hvar⟩]

theorem claim_C3_witness :
    (∃ u, UUID.fromBytes [0, 0, 0, 0, 0, 0, 64, 0, 128, 0, 0, 0, 0, 0, 0, 0] = .ok u ∧
      UUID.toBytes u = [0, 0, 0, 0, 0, 0, 64, 0, 128, 0, 0, 0, 0, 0, 0, 0]) ∧
    UUID.isValidBytes [0, 0, 0, 0, 0, 0, 64, 0, 128, 0, 0, 0, 0, 0, 0, 0] = .ok true :=
  claim_C3_roundtrip _ (by decide) (by decide) (by decide) (by decide) (by decide)

/-- Claim C4: for every valid canonical 36-character string s,
fromString(s).toString() equals the lowercase form of s; for every valid
32-character hex string h, fromHex(h).toHex() equals the lowercase form
of h. -/
theorem claim_C4_roundtrip :
    (∀ s : String, UUID.isValidString s = true →
      ∃ u, UUID.fromString s = .ok u ∧ UUID.toStr u = .ok (lowerStr s)) ∧
    (∀ h : String, UUID.isValidHex h = true →
      ∃ u, UUID.fromHex h = .ok u ∧ UUID.toHex u = lowerStr h) := by
  constructor
  · intro s hs
    obtain ⟨u, h1, _, _, h2⟩ := fromString_toStr s hs
    exact ⟨u, h1, h2⟩
  · intro h hh
    obtain ⟨u, h1, _, _, h2⟩ := fromHex_toHex h hh
    exact ⟨u, h1, h2⟩

theorem claim_C4_witness :
    ∃ u, UUID.fromString "9E472052-A654-4693-9A8B-3CE57ADA3D6C" = .ok u ∧
      UUID.toStr u = .ok (lowerStr "9E472052-A654-4693-9A8B-3CE57ADA3D6C") :=
  claim_C4_roundtrip.1 "9E472052-A654-4693-9A8B-3CE57ADA3D6C" (by decide)

/-- Claim C5 counterexample: compare accepts the parseable byte inputs [1]
and [1,5] (parseBytes performs no length check) and returns 1 in both
directions, so compare(a,b) = -compare(b,a) fails on parseable inputs: the
out-of-range reads compare as JavaScript undefined, for which every order
comparison is false. -/
theorem claim_C5_counterexample :
    UUID.compare (Input.bytes [1]) (Input.bytes [1, 5]) = .ok 1 ∧
    UUID.compare (Input.bytes [1, 5]) (Input.bytes [1]) = .ok 1 ∧
    UUID.compare (Input.bytes [1]) (Input.bytes [1, 5]) ≠ .ok (-1) :=
  ⟨by decide, by decide, by decide⟩

/-- Claim C5 (amended): restricted to inputs that parse to exactly 16 bytes,
compare is a strict total order by unsigned lexicographic byte comparison:
compare(a,a) = 0; compare(b,a) = -compare(a,b); the order is transitive; and
compare(a,b) = 0 exactly when the 16 parsed bytes coincide. -/
theorem claim_C5_amended (a b c : Input) (ba bb bc : List Nat)
    (hpa : UUID.parse (some a) = .ok ba) (hpb : UUID.parse (some b) = .ok bb)
    (hpc : UUID.parse (some c) = .ok bc)
    (la : ba.length = 16) (lb : bb.length = 16) (lc : bc.length = 16) :
    UUID.compare a a = .ok 0 ∧
    (∀ x : Int, UUID.compare a b = .ok x → UUID.compare b a = .ok (-x)) ∧
    (∀ x y : Int, UUID.compare a b = .ok x → UUID.compare b c = .ok y → x ≤ 0 → y ≤ 0 →
      ∃ z, UUID.compare a c = .ok z ∧ z ≤ 0) ∧
    (UUID.compare a b = .ok 0 ↔ ba = bb) := by
  have hca : ∀ (p q : Input) (bp bq : List Nat), UUID.parse (some p) = .ok bp →
      UUID.parse (some q) = .ok bq →
      UUID.compare p q = .ok (UUID.compareBytes bp bq) := by
    intro p q bp bq hp hq
    rw [UUID.compare, hp, except_bind_ok, hq, except_bind_ok]
  refine ⟨?_, ?_, ?_, ?_⟩
  · rw [hca a a ba ba hpa hpa,
      show UUID.compareBytes ba ba = 0 from compareLoop_self ba 16 0]
  · intro x hx
    rw [hca a b ba bb hpa hpb] at hx
    have hx' : x = UUID.compareBytes ba bb := by
      injection hx with h
      exact h.symm
    subst hx'
    rw [hca b a bb ba hpb hpa]
    have := compareLoop_antisymm ba bb 16 0 (fun j h1 h2 => ⟨by omega, by omega⟩)
    rw [show UUID.compareBytes bb ba = UUID.compareLoop bb ba 0 16 from rfl, this]
    rfl
  · intro x y hx hy hx0 hy0
    rw [hca a b ba bb hpa hpb] at hx
    rw [hca b c bb bc hpb hpc] at hy
    have hx' : x = UUID.compareBytes ba bb := by injection hx with h; exact h.symm
    have hy' : y = UUID.compareBytes bb bc := by injection hy with h; exact h.symm
    subst hx' hy'
    refine ⟨UUID.compareBytes ba bc, hca a c ba bc hpa hpc, ?_⟩
    exact compareLoop_trans_le ba bb bc 16 0
      (fun j h1 h2 => ⟨by omega, by omega, by omega⟩) hx0 hy0
  · rw [hca a b ba bb hpa hpb]
    constructor
    · intro h
      have h' : UUID.compareBytes ba bb = 0 := by injection h
      exact (compareBytes_eq_zero_iff_eq la lb).mp h'
    · intro h
      rw [(compareBytes_eq_zero_iff_eq la lb).mpr h]

theorem claim_C5_witness :
    UUID.compare (Input.bytes (List.replicate 16 7)) (Input.bytes (List.replicate 16 7)) =
      .ok 0 :=
  (claim_C5_amended (Input.bytes (List.replicate 16 7)) (Input.bytes (List.replicate 16 7))
    (Input.bytes (List.replicate 16 7)) (List.replicate 16 7) (List.replicate 16 7)
    (List.replicate 16 7) rfl rfl rfl (by decide) (by decide) (by decide)).1

/-- Claim C6: for parseable inputs a and b, equals(a,b) returns true exactly
when compare(a,b) returns 0, and equals(a, null) returns false without
throwing. -/
theorem claim_C6_equals_compare (a b : Input) (ba bb : List Nat)
    (hpa : UUID.parse (some a) = .ok ba) (hpb : UUID.parse (some b) = .ok bb) :
    (UUID.equalsList [some a, some b] = .ok true ↔ UUID.compare a b = .ok 0) ∧
    UUID.equalsList [some a, none] = .ok false := by
  constructor
  · rw [equalsList_cons2]
    show ((UUID.parse (some a)).bind fun ref => UUID.equalsLoop ref [some b]) = .ok true ↔ _
    rw [hpa, except_bind_ok, equalsLoop_cons_some ba bb b [] hpb]
    rw [UUID.compare, hpa, except_bind_ok, hpb, except_bind_ok]
    by_cases he : UUID.equalsBytes ba bb = true
    · rw [if_pos he]
      have h0 : UUID.compareBytes ba bb = 0 := (equalsBytesLoop_iff ba bb 16 0).mp he
      rw [h0]
      simp [UUID.equalsLoop]
    · rw [if_neg he]
      have h0 : ¬ UUID.compareBytes ba bb = 0 :=
        fun hc => he ((equalsBytesLoop_iff ba bb 16 0).mpr hc)
      constructor
      · intro h
        exact absurd h (by simp)
      · intro h
        exfalso
        apply h0
        injection h
  · rw [equalsList_cons2]
    show ((UUID.parse (some a)).bind fun ref => UUID.equalsLoop ref [none]) = .ok false
    rw [hpa, except_bind_ok]
    rfl

theorem claim_C6_witness :
    (UUID.equalsList [some (Input.bytes (List.replicate 16 9)),
        some (Input.bytes (List.replicate 16 9))] = .ok true ↔
      UUID.compare (Input.bytes (List.replicate 16 9))
        (Input.bytes (List.replicate 16 9)) = .ok 0) ∧
    UUID.equalsList [some (Input.bytes (List.replicate 16 9)), none] = .ok false :=
  claim_C6_equals_compare (Input.bytes (List.replicate 16 9))
    (Input.bytes (List.replicate 16 9)) (List.replicate 16 9) (List.replicate 16 9) rfl rfl

/-- Claim C7: isValid never throws and returns a boolean for every input
(null, strings and byte buffers of any length, UUID instances, other
objects), and that boolean is true exactly for a 36-character string
matching the strict RFC-4122 pattern, a 32-character string matching the
strict hex pattern, or a Uint8Array or UUID whose 16 bytes have version
nibble in [1,5] and variant bits 0b10 (formalised by isValidSpec); Uint8Array
entries are below 256 by construction, the side condition inputBytesBounded. -/
theorem claim_C7_isValid_total (input : Option Input) (hb : inputBytesBounded input) :
    ∃ r : Bool, UUID.isValid input = .ok r ∧ (r = true ↔ isValidSpec input) := by
  match input with
  | none => exact ⟨false, rfl, by simp [isValidSpec]⟩
  | some Input.other => exact ⟨false, rfl, by simp [isValidSpec]⟩
  | some (Input.str s) =>
    by_cases h36 : s.length = 36
    · refine ⟨UUID.isValidString s, by rw [isValid_str, if_pos h36], ?_⟩
      show _ ↔ (s.length = 36 ∧ UUID.isValidString s = true) ∨
        (s.length = 32 ∧ UUID.isValidHex s = true)
      constructor
      · intro h
        exact Or.inl ⟨h36, h⟩
      · rintro (⟨_, h⟩ | ⟨h32, _⟩)
        · exact h
        · omega
    · by_cases h32 : s.length = 32
      · refine ⟨UUID.isValidHex s, by rw [isValid_str, if_neg h36, if_pos h32], ?_⟩
        show _ ↔ (s.length = 36 ∧ UUID.isValidString s = true) ∨
          (s.length = 32 ∧ UUID.isValidHex s = true)
        constructor
        · intro h
          exact Or.inr ⟨h32, h⟩
        · rintro (⟨h36', _⟩ | ⟨_, h⟩)
          · omega
          · exact h
      · refine ⟨false, by rw [isValid_str, if_neg h36, if_neg h32], ?_⟩
        show _ ↔ (s.length = 36 ∧ UUID.isValidString s = true) ∨
          (s.length = 32 ∧ UUID.isValidHex s = true)
        simp only [Bool.false_eq_true, false_iff]
        rintro (⟨h, _⟩ | ⟨h, _⟩)
        · exact h36 h
        · exact h32 h
  | some (Input.bytes b) =>
    obtain ⟨r, hr, hiff⟩ := isValidBytes_spec (b := b) hb
    exact ⟨r, hr, hiff⟩
  | some (Input.uuid u) =>
    obtain ⟨r, hr, hiff⟩ := isValidBytes_spec (b := u.bytes) hb
    exact ⟨r, hr, hiff⟩

theorem claim_C7_witness :
    inputBytesBounded (some (Input.str "9e472052-a654-4693-9a8b-3ce57ada3d6c")) ∧
    ∃ r : Bool, UUID.isValid (some (Input.str "9e472052-a654-4693-9a8b-3ce57ada3d6c")) =
        .ok r ∧
      (r = true ↔ isValidSpec (some (Input.str "9e472052-a654-4693-9a8b-3ce57ada3d6c"))) :=
  ⟨True.intro, claim_C7_isValid_total
    (some (Input.str "9e472052-a654-4693-9a8b-3ce57ada3d6c")) True.intro⟩

/-- Claim C8: equals with fewer than two arguments fails with an error
(InvalidArgumentError); with at least two arguments it returns false, without
throwing, whenever some argument is null, provided every non-null argument
before the null one parses successfully. -/
theorem claim_C8_equals_arity (inputs : List (Option Input)) :
    (inputs.length < 2 → ∃ e, UUID.equalsList inputs = .error e) ∧
    (2 ≤ inputs.length → ∀ k, inputs.get? k = some none →
      (∀ j, j < k → ∀ x : Input, inputs.get? j = some (some x) →
        ∃ bx, UUID.parse (some x) = .ok bx) →
      UUID.equalsList inputs = .ok false) := by
  constructor
  · intro h
    exact ⟨_, equalsList_short inputs h⟩
  · intro h2 k hk hpre
    cases inputs with
    | nil => exact absurd h2 (by simp)
    | cons i0 t =>
      cases t with
      | nil => exact absurd h2 (by simp)
      | cons i1 rest =>
        rw [equalsList_cons2]
        cases k with
        | zero =>
          rw [List.get?_cons_zero] at hk
          have h0 : i0 = none := by injection hk
          subst h0
          rfl
        | succ m =>
          rw [List.get?_cons_succ] at hk
          cases i0 with
          | none => rfl
          | some x =>
            obtain ⟨bx, hbx⟩ := hpre 0 (by omega) x (by rw [List.get?_cons_zero])
            show ((UUID.parse (some x)).bind
              fun ref => UUID.equalsLoop ref (i1 :: rest)) = .ok false
            rw [hbx, except_bind_ok]
            refine equalsLoop_null bx (i1 :: rest) m hk ?_
            intro j hj y hy
            exact hpre (j + 1) (by omega) y (by rwa [List.get?_cons_succ])

theorem claim_C8_witness :
    UUID.equalsList [some (Input.bytes (List.replicate 16 1)), none] = .ok false := by
  apply (claim_C8_equals_arity [some (Input.bytes (List.replicate 16 1)), none]).2
    (by decide) 1 rfl
  intro j hj x hx
  have hj0 : j = 0 := by omega
  subst hj0
  rw [List.get?_cons_zero] at hx
  have hx1 : some (Input.bytes (List.replicate 16 1)) = some x := by injection hx
  have hx2 : Input.bytes (List.replicate 16 1) = x := by injection hx1
  rw [← hx2]
  exact ⟨List.replicate 16 1, rfl⟩

/-- Claim C9: on a 16-byte sequence, version returns the high nibble of byte
index 6 (a value in 0..15 with no further range restriction); on a byte
sequence of any other length it fails with an error; on every other supported
shape it parses to bytes and recurses (equivalently, binds versionBytes over
the parse); and version of fromString("9e472052-a654-4693-9a8b-3ce57ada3d6c")
is 4. -/
theorem claim_C9_version :
    (∀ b : List Nat, b.length = 16 → (∀ x ∈ b, x < 256) →
      UUID.version (some (Input.bytes b)) = .ok (b.getD 6 0 / 16) ∧
      b.getD 6 0 / 16 ≤ 15) ∧
    (∀ b : List Nat, b.length ≠ 16 →
      UUID.version (some (Input.bytes b)) =
        .error "Invalid UUID byte length: expected 16") ∧
    (∀ s : String, UUID.version (some (Input.str s)) =
      (UUID.parse (some (Input.str s))).bind UUID.versionBytes) ∧
    (∀ u : UUID, UUID.version (some (Input.uuid u)) =
      (UUID.parse (some (Input.uuid u))).bind UUID.versionBytes) ∧
    (∃ u, UUID.fromString "9e472052-a654-4693-9a8b-3ce57ada3d6c" = .ok u ∧
      UUID.version (some (Input.uuid u)) = .ok 4) := by
  refine ⟨?_, ?_, fun s => rfl, fun u => rfl, ?_⟩
  · intro b hlen hb
    constructor
    · show UUID.versionBytes b = _
      rw [UUID.versionBytes, if_pos hlen]
    · have h6 : b.getD 6 0 < 256 := hb _ (getD_mem_of_lt (by omega))
      omega
  · intro b hlen
    show UUID.versionBytes b = _
    rw [UUID.versionBytes, if_neg hlen]
  · exact ⟨⟨[0x9e, 0x47, 0x20, 0x52, 0xa6, 0x54, 0x46, 0x93,
      0x9a, 0x8b, 0x3c, 0xe5, 0x7a, 0xda, 0x3d, 0x6c]⟩, by decide, by decide⟩

theorem claim_C9_witness :
    UUID.version (some (Input.bytes (List.replicate 16 0))) =
      .ok ((List.replicate 16 0).getD 6 0 / 16) :=
  (claim_C9_version.1 (List.replicate 16 0) (by decide) (by decide)).1

/-- Claim C10: the special constants are constructible but fail semantic
validation: nil() (sixteen zero bytes) has version nibble 0, outside [1,5],
and max() (sixteen 0xFF bytes) has variant bits 0b11, not 0b10 (its version
nibble 15 is also outside [1,5]); isValid returns false on both. -/
theorem claim_C10_constants :
    UUID.nil = .ok ⟨List.replicate 16 0⟩ ∧
    UUID.max = .ok ⟨List.replicate 16 255⟩ ∧
    UUID.isValid (some (Input.uuid ⟨List.replicate 16 0⟩)) = .ok false ∧
    UUID.isValid (some (Input.uuid ⟨List.replicate 16 255⟩)) = .ok false ∧
    UUID.versionBytes (List.replicate 16 0) = .ok 0 ∧
    ((List.replicate 16 255).getD 8 0 &&& 0xc0) / 64 = 3 ∧
    UUID.versionBytes (List.replicate 16 255) = .ok 15 :=
  ⟨rfl, rfl, by decide, by decide, by decide, by decide, by decide⟩
